import Mathlib

/-!
Shallow embedding of the target-reference subsystem (`src/domain/target.go`)
and of the indentation/here-doc wrapper lexer (`src/earthfile2llb/lexer.go`)
of the repository, together with theorems settling the frozen claims.

Strings are modelled by Lean `String` at the interface; the internal
computations work on the underlying `List Char` (`String.data`), which is
definitionally the content of a `String` in this toolchain.
-/

/-- Abbreviation for `String`, used in signatures of definitions living in
the `Target` namespace (where the bare name `String` would otherwise resolve
to the render function `Target.String` below). -/
abbrev Str := String

namespace Earthly

/-- Go `path.IsAbs` (POSIX): a path is absolute iff it starts with '/'. -/
def isAbs : List Char → Bool
  | '/' :: _ => true
  | _ => false

/-- Whether a path begins with '.', i.e. Go `strings.HasPrefix(p, ".")`. -/
def leadsDot : List Char → Bool
  | '.' :: _ => true
  | _ => false

/-- Go `path.Clean` (POSIX, `path` package): remove empty and "." elements,
resolve ".." against preceding elements, drop ".." at a rooted start; empty
result becomes "." (or "/" when rooted). -/
def pathClean (p : List Char) : List Char :=
  if p = [] then ['.']
  else
    let rooted := isAbs p
    let comps := (p.splitOn '/').filter (fun c => c ≠ [] ∧ c ≠ ['.'])
    let stack := comps.foldl
      (fun st c =>
        if c = ['.', '.'] then
          match st with
          | h :: t => if h = ['.', '.'] then c :: h :: t else t
          | [] => if rooted then [] else [c]
        else c :: st) []
    let body := List.intercalate ['/'] stack.reverse
    if rooted then '/' :: body
    else if body = [] then ['.']
    else body

/-- Go `path.Join(a, b)`: join the non-empty elements with '/' and clean.
`Join("", "") = ""`, `Join("", b) = Clean(b)`, `Join(a, b) = Clean(a+"/"+b)`. -/
def pathJoin (a b : List Char) : List Char :=
  if a = [] then
    if b = [] then [] else pathClean b
  else pathClean (a ++ '/' :: b)

/-- Go `strings.SplitN(s, c, 2)` for a one-character separator, as an option:
`none` when the separator does not occur (Go returns a one-element slice),
otherwise the part before the first occurrence and everything after it. -/
def splitFirst (c : Char) : List Char → Option (List Char × List Char)
  | [] => none
  | x :: xs =>
    if x = c then some ([], xs)
    else (splitFirst c xs).map (fun p => (x :: p.1, p.2))

/-- Go `strings.Index(s, pat)`: index of the first occurrence of `pat` in
`s`, or `none` when absent. -/
def findSub (pat : List Char) : List Char → Option Nat
  | [] => if pat.isPrefixOf [] then some 0 else none
  | x :: t =>
    if pat.isPrefixOf (x :: t) then some 0
    else (findSub pat t).map (· + 1)

/-- One element of a compiled git-matcher regular expression. The patterns in
`src/domain/target.go` use only literal characters, the metacharacter '.'
(matches any character), and the character-class expression `[^/]+`. -/
inductive PatItem where
  | lit (c : Char)
  | anyc
  | seg
deriving DecidableEq, Repr

/-- Compile one of the matcher pattern strings into a list of `PatItem`s:
`[^/]+` becomes `seg`, '.' becomes `anyc` (regexp '.' matches any character),
every other character is a literal. -/
def compilePat : List Char → List PatItem
  | '[' :: '^' :: '/' :: ']' :: '+' :: rest => .seg :: compilePat rest
  | '.' :: rest => .anyc :: compilePat rest
  | c :: rest => .lit c :: compilePat rest
  | [] => []

/-- Run a compiled pattern at the start of `xs`; returns the number of
characters consumed. `seg` (`[^/]+`) matches greedily; in the patterns of
`src/domain/target.go` a `seg` is always followed by a literal '/' or the end
of the pattern, so greedy matching needs no backtracking and agrees with Go
`regexp` (leftmost-first) semantics. -/
def runPat : List PatItem → List Char → Option Nat
  | [], _ => some 0
  | .lit c :: ps, x :: xs => if x = c then (runPat ps xs).map (· + 1) else none
  | .lit _ :: _, [] => none
  | .anyc :: ps, _ :: xs => (runPat ps xs).map (· + 1)
  | .anyc :: _, [] => none
  | .seg :: ps, xs =>
    let run := xs.takeWhile (fun c => c ≠ '/')
    if run = [] then none
    else (runPat ps (xs.drop run.length)).map (· + run.length)

/-- Go `Regexp.FindString`: try the pattern at each start position from the
left; the result is the start index and length of the leftmost match. -/
def findFrom (pat : List PatItem) : List Char → Nat → Option (Nat × Nat)
  | [], i =>
    match runPat pat [] with
    | some n => some (i, n)
    | none => none
  | x :: t, i =>
    match runPat pat (x :: t) with
    | some n => some (i, n)
    | none => findFrom pat t (i + 1)

/-- One entry of the matcher table in `parseGitURLandPath`
(`src/domain/target.go` lines 103-124). -/
structure gitMatcher where
  pattern : String
  user : String
  suffix : String
deriving DecidableEq, Repr

/-- The hard-coded matcher list of `parseGitURLandPath`, in declaration
order. -/
def matchers : List gitMatcher :=
  [⟨"github.com/[^/]+/[^/]+", "git", ".git"⟩,
   ⟨"gitlab.com/[^/]+/[^/]+", "git", ".git"⟩,
   ⟨"bitbucket.com/[^/]+/[^/]+", "git", ".git"⟩,
   ⟨"192.168.0.116/my/test/path/[^/]+", "alex", ".git"⟩]

/-- The matcher loop of `parseGitURLandPath`: first matcher whose pattern
finds a match wins; the sub-path is `path[len(match):]` — note the Go code
drops `len(match)` characters from the start of the original path, not from
the end of the match. No matcher matching yields `("", "")` with a nil error
(the function never returns a non-nil error). -/
def lookupMatchers (p : List Char) : List gitMatcher → List Char × List Char
  | [] => ([], [])
  | m :: ms =>
    match findFrom (compilePat m.pattern.data) p 0 with
    | some (i, n) => ((p.drop i).take n, p.drop n)
    | none => lookupMatchers p ms

/-- Go `parseGitURLandPath` (`src/domain/target.go` lines 102-139), with the
debug printing dropped. The Go error result is omitted because the function
always returns a nil error. -/
def parseGitURLandPath (p : List Char) : List Char × List Char :=
  lookupMatchers p matchers

/-- The `Target` struct of `src/domain/target.go`. The Go field `Target`
(the target name) is rendered as `TargetName` because a field cannot share
the name of its structure in Lean. -/
structure Target where
  GitURL : String
  GitPath : String
  Tag : String
  LocalPath : String
  TargetName : String
deriving DecidableEq, Repr

/-- Go `Target.IsLocalInternal`. -/
def Target.IsLocalInternal (et : Target) : Bool :=
  et.LocalPath = "."

/-- Go `Target.IsLocalExternal`. -/
def Target.IsLocalExternal (et : Target) : Bool :=
  et.LocalPath ≠ "." ∧ et.LocalPath ≠ ""

/-- Go `Target.IsRemote`. -/
def Target.IsRemote (et : Target) : Bool :=
  !et.IsLocalExternal && !et.IsLocalInternal

/-- Go `Target.IsExternal`. -/
def Target.IsExternal (et : Target) : Bool :=
  et.IsRemote || et.IsLocalExternal

/-- The tag fragment used by the render functions: ":"+Tag, or "" when Tag
is empty. -/
def tagPart (tag : Str) : Str :=
  if tag = "" then "" else ":" ++ tag

/-- Go `Target.String` (`src/domain/target.go` lines 52-66). -/
def Target.String (et : Target) : Str :=
  if et.IsLocalExternal then et.LocalPath ++ "+" ++ et.TargetName
  else if et.IsRemote then
    et.GitURL ++ "/" ++ et.GitPath ++ tagPart et.Tag ++ "+" ++ et.TargetName
  else "+" ++ et.TargetName

/-- Go `Target.StringCanonical` (`src/domain/target.go` lines 69-78). -/
def Target.StringCanonical (et : Target) : Str :=
  if et.GitURL ≠ "" then
    et.GitURL ++ "/" ++ et.GitPath ++ tagPart et.Tag ++ "+" ++ et.TargetName
  else et.String

/-- The "./" re-application rule appearing twice in the Go source (lines
161-163 of `ParseTarget` and lines 219-221 of `JoinTargets`): when a
relative path does not begin with '.', prepend "./". -/
def dotRule (p : List Char) : List Char :=
  if leadsDot p then p else '.' :: '/' :: p

/-- The local-path normalization of the local-external parse branch
(`src/domain/target.go` lines 156-164): clean, and for relative paths whose
cleaned form does not begin with '.', prepend "./". -/
def normalizeLocalPath (p : List Char) : List Char :=
  if isAbs p then pathClean p
  else dotRule (pathClean p)

/-- The tag split of the remote parse branch (`src/domain/target.go` lines
171-175): `strings.SplitN(prefixPart, ":", 2)`; the first component is fed
to the matcher, the second (empty when there is no ':') is the tag. -/
def parseTag (pre : List Char) : List Char × List Char :=
  match splitFirst ':' pre with
  | some (a, b) => (a, b)
  | none => (pre, [])

/-- Go `ParseTarget` (`src/domain/target.go` lines 142-189). -/
def ParseTarget (fullTargetName : Str) : Except Str Target :=
  match splitFirst '+' fullTargetName.data with
  | none => .error ("Invalid target ref " ++ fullTargetName)
  | some (pre, rest) =>
    if pre = [] then
      .ok ⟨"", "", "", ".", rest.asString⟩
    else if leadsDot pre || isAbs pre then
      .ok ⟨"", "", "", (normalizeLocalPath pre).asString, rest.asString⟩
    else
      let pt := parseTag pre
      let gp := parseGitURLandPath pt.1
      .ok ⟨gp.1.asString, gp.2.asString, pt.2.asString, "", rest.asString⟩

/-- The error outcome of `JoinTargets`: the remote-caller branch of the Go
code (`src/domain/target.go` line 197) executes `panic("TODO")`
unconditionally whenever the callee is not remote; everything after it in
that branch (tag inheritance, the absolute-path `ContextError` return) is
unreachable code. -/
inductive JoinError where
  | panicTODO
deriving DecidableEq, Repr

/-- Go `JoinTargets` (`src/domain/target.go` lines 192-228), with the
unconditional `panic("TODO")` of the remote-caller/non-remote-callee branch
modelled as the `panicTODO` error. -/
def JoinTargets (target1 target2 : Target) : Except JoinError Target :=
  if target1.IsRemote then
    if !target2.IsRemote then .error .panicTODO
    else .ok target2
  else
    if target2.IsLocalExternal then
      if isAbs target2.LocalPath.data then
        .ok { target2 with LocalPath := (pathClean target2.LocalPath.data).asString }
      else
        let lp := dotRule (pathJoin target1.LocalPath.data target2.LocalPath.data)
        .ok { target2 with LocalPath := lp.asString }
    else if target2.IsLocalInternal then
      .ok { target2 with LocalPath := target1.LocalPath }
    else .ok target2

/-- A token delivered by the underlying generated lexer to the wrapper in
`src/earthfile2llb/lexer.go`: whitespace, newline, or any other
(content-bearing) token, identified abstractly by a number. Atoms beginning
with `<<` take the here-doc branch of `NextToken`, which reads from the raw
character stream; that branch is modelled separately by `heredocExtract`. -/
inductive UTok where
  | ws
  | nl
  | content (id : Nat)
deriving DecidableEq, Repr

/-- A token emitted by the wrapper lexer: the underlying tokens plus the
synthetic INDENT and DEDENT tokens, plus EOF. -/
inductive Tok where
  | ws
  | nl
  | content (id : Nat)
  | INDENT
  | DEDENT
  | eof
deriving DecidableEq, Repr

/-- The wrapper-lexer state of `src/earthfile2llb/lexer.go` lines 13-20
(the recorded whitespace position fields, used only to position the
synthetic tokens, are not modelled). -/
structure LexState where
  prevIndentLevel : Nat
  indentLevel : Nat
  afterNewLine : Bool
  tokenQueue : List Tok
deriving DecidableEq, Repr

/-- The zero-valued initial state of a freshly constructed `lexer`. -/
def initLexState : LexState := ⟨0, 0, false, []⟩

/-- The queue logic at the end of `NextToken` (lines 103-107): when the
queue is non-empty, the fresh token is appended and the front of the queue
is returned instead. -/
def emitFromQueue (st : LexState) (peek : Tok) : Tok × LexState :=
  match st.tokenQueue with
  | [] => (peek, st)
  | q0 :: qrest => (q0, { st with tokenQueue := qrest ++ [peek] })

/-- `lexer.NextToken` (`src/earthfile2llb/lexer.go` lines 29-109) on one
underlying token, for tokens that do not take the here-doc branch: WS after
a newline increments the indent level by one; NL resets the level and sets
`afterNewLine`; any other token, when `afterNewLine` is set, appends exactly
one INDENT to the queue if the level strictly grew and exactly one DEDENT if
it strictly shrank, then records the level and clears `afterNewLine`. -/
def nextToken (st : LexState) (peek : UTok) : Tok × LexState :=
  match peek with
  | .ws =>
    let st :=
      if st.afterNewLine then { st with indentLevel := st.indentLevel + 1 }
      else st
    emitFromQueue st .ws
  | .nl =>
    emitFromQueue { st with indentLevel := 0, afterNewLine := true } .nl
  | .content n =>
    let st :=
      if st.afterNewLine then
        if st.prevIndentLevel < st.indentLevel then
          { st with tokenQueue := st.tokenQueue ++ [Tok.INDENT] }
        else if st.prevIndentLevel > st.indentLevel then
          { st with tokenQueue := st.tokenQueue ++ [Tok.DEDENT] }
        else st
      else st
    let st := { st with prevIndentLevel := st.indentLevel, afterNewLine := false }
    emitFromQueue st (.content n)

/-- One fold step of running the wrapper lexer over an underlying token
stream, accumulating the emitted tokens. -/
def lexStep (acc : List Tok × LexState) (t : UTok) : List Tok × LexState :=
  let r := nextToken acc.2 t
  (acc.1 ++ [r.1], r.2)

/-- The synthetic token the wrapper would enqueue on the first end-of-stream
`NextToken` call (the underlying lexer keeps returning EOF, which goes
through the default branch of the switch). -/
def eofSynth (st : LexState) : List Tok :=
  if st.afterNewLine then
    if st.prevIndentLevel < st.indentLevel then [Tok.INDENT]
    else if st.prevIndentLevel > st.indentLevel then [Tok.DEDENT]
    else []
  else []

/-- Run the wrapper lexer over a whole underlying token stream. After the
real tokens, the consumer keeps calling `NextToken`; the underlying lexer
returns EOF each time, so the pending queue drains in order, followed by the
one synthetic token the first EOF call may enqueue, followed by EOF (the
consumer stops at the first EOF). -/
def lexAll (input : List UTok) : List Tok :=
  let r := input.foldl lexStep ([], initLexState)
  r.1 ++ r.2.tokenQueue ++ eofSynth r.2 ++ [Tok.eof]

/-- The here-doc branch of `lexer.NextToken` (`src/earthfile2llb/lexer.go`
lines 50-85), as a function of the raw input text and the start index of the
`<<`-atom. The Go code hard-codes the delimiter `"EOF"` (with a TODO to
parse the real tag), skips `len("<<EOF\n")` characters, reads a hard-coded
window of `n = 19` characters from the stream, and searches that window for
the substring `"EOF"`; if it is absent the Go code panics ("EOF not found"),
modelled as `none`. On success the result is the body text (the window up to
the found index) and the new input-cursor position. -/
def heredocExtract (input : Str) (tokenStart : Nat) : Option (Str × Nat) :=
  let heredoc := "EOF"
  let start := tokenStart + ("<<" ++ heredoc ++ "\n").length
  let n := 19
  let s := (input.data.drop start).take n
  match findSub heredoc.data s with
  | none => none
  | some idx =>
    let body := s.take idx
    some (body.asString, start + idx + heredoc.length)

/-- The origin classification asserted by the spec's reference invariant:
exactly one of local-internal, local-external (with a local path that is
neither empty nor "."), or remote holds. The non-empty `git_url`
requirement of the original claim is deliberately absent: the code does not
guarantee it (see the C6 counterexample). -/
def classified (t : Target) : Prop :=
  ((t.IsLocalInternal = true ∧ t.IsLocalExternal = false ∧ t.IsRemote = false) ∨
   (t.IsLocalExternal = true ∧ t.IsLocalInternal = false ∧ t.IsRemote = false) ∨
   (t.IsRemote = true ∧ t.IsLocalInternal = false ∧ t.IsLocalExternal = false)) ∧
  (t.IsLocalExternal = true → t.LocalPath ≠ "" ∧ t.LocalPath ≠ ".")

/-! ### Helper lemmas -/

/-- Appending strings is appending their character lists. -/
theorem string_mk_append (a b : List Char) : (⟨a⟩ : Str) ++ (⟨b⟩ : Str) = ⟨a ++ b⟩ := rfl

/-- `splitFirst` at the first occurrence of the separator. -/
theorem splitFirst_append (c : Char) (pre rest : List Char) (h : c ∉ pre) :
    splitFirst c (pre ++ c :: rest) = some (pre, rest) := by
  induction pre with
  | nil => simp [splitFirst]
  | cons x xs ih =>
    simp only [List.mem_cons, not_or] at h
    simp [splitFirst, Ne.symm h.1, ih h.2]

/-- `splitFirst` in terms of `takeWhile`/`dropWhile` when the separator
occurs. -/
theorem splitFirst_of_mem (c : Char) (xs : List Char) (h : c ∈ xs) :
    splitFirst c xs = some (xs.takeWhile (· ≠ c), (xs.dropWhile (· ≠ c)).tail) := by
  induction xs with
  | nil => cases h
  | cons x t ih =>
    by_cases hx : x = c
    · subst hx
      simp [splitFirst, List.takeWhile, List.dropWhile]
    · have ht : c ∈ t := by
        cases h with
        | head => exact absurd rfl hx
        | tail _ h' => exact h'
      simp [splitFirst, hx, List.takeWhile, List.dropWhile, Ne.symm hx, ih ht]

/-- Parsing a reference whose text begins with '+' yields the local-internal
target. -/
theorem ParseTarget_plus (rest : List Char) :
    ParseTarget ⟨'+' :: rest⟩ = .ok ⟨"", "", "", ".", ⟨rest⟩⟩ := rfl

/-- Parsing `pre + "+" + name` when `pre` begins with '.' or '/' yields the
local-external target with the normalized path. -/
theorem ParseTarget_localExternal (p n : List Char) (hp : '+' ∉ p)
    (hl : (leadsDot p || isAbs p) = true) :
    ParseTarget ⟨p ++ '+' :: n⟩ = .ok ⟨"", "", "", ⟨normalizeLocalPath p⟩, ⟨n⟩⟩ := by
  have hne : p ≠ [] := by
    intro hcon
    subst hcon
    simp [leadsDot, isAbs] at hl
  unfold ParseTarget
  rw [show (⟨p ++ '+' :: n⟩ : Str).data = p ++ '+' :: n from rfl,
    splitFirst_append '+' p n hp]
  simp [hne, hl, List.asString]

/-- Character-list disequality lifts to `String`. -/
theorem mkStr_ne_dot (p : List Char) (h : p ≠ ['.']) : (⟨p⟩ : Str) ≠ "." := by
  intro hcon
  exact h (congrArg String.data hcon)

/-- Character-list non-emptiness lifts to `String`. -/
theorem mkStr_ne_nil (p : List Char) (h : p ≠ []) : (⟨p⟩ : Str) ≠ "" := by
  intro hcon
  exact h (congrArg String.data hcon)

/-- `Target.String` on a local-external target. -/
theorem String_localExternal (gu gp tg lp nm : Str) (h1 : lp ≠ ".") (h2 : lp ≠ "") :
    Target.String ⟨gu, gp, tg, lp, nm⟩ = lp ++ "+" ++ nm := by
  simp [Target.String, Target.IsLocalExternal, h1, h2]

/-- `Target.StringCanonical` on a local-internal target without git fields. -/
theorem StringCanonical_dot (gp tg nm : Str) :
    Target.StringCanonical ⟨"", gp, tg, ".", nm⟩ = "+" ++ nm := rfl

/-- `Target.StringCanonical` on a local-external target without git fields. -/
theorem StringCanonical_localExternal (gp tg lp nm : Str) (h1 : lp ≠ ".") (h2 : lp ≠ "") :
    Target.StringCanonical ⟨"", gp, tg, lp, nm⟩ = lp ++ "+" ++ nm := by
  have h0 : Target.StringCanonical ⟨"", gp, tg, lp, nm⟩ =
      Target.String ⟨"", gp, tg, lp, nm⟩ := rfl
  rw [h0, String_localExternal "" gp tg lp nm h1 h2]

/-- A local-internal target is not local-external. -/
theorem IsLocalInternal_not_ext (t : Target) (h : t.IsLocalInternal = true) :
    t.IsLocalExternal = false := by
  simp [Target.IsLocalInternal] at h
  simp [Target.IsLocalExternal, h]

/-- A remote target is neither local-external nor local-internal. -/
theorem IsRemote_fields (t : Target) (h : t.IsRemote = true) :
    t.IsLocalExternal = false ∧ t.IsLocalInternal = false := by
  simp [Target.IsRemote, Bool.and_eq_true, Bool.not_eq_true'] at h
  exact ⟨h.1, h.2⟩

/-- Every target value satisfies the (weakened) origin classification,
because the three predicates partition all values by definition. -/
theorem target_class (t : Target) : classified t := by
  by_cases h1 : t.LocalPath = "."
  · exact ⟨Or.inl (by simp [Target.IsLocalInternal, Target.IsLocalExternal, Target.IsRemote, h1]),
      by simp [Target.IsLocalExternal, h1]⟩
  · by_cases h2 : t.LocalPath = ""
    · exact ⟨Or.inr (Or.inr (by
        simp [Target.IsLocalInternal, Target.IsLocalExternal, Target.IsRemote, h1, h2])),
        by simp [Target.IsLocalExternal, h2]⟩
    · exact ⟨Or.inr (Or.inl (by
        simp [Target.IsLocalInternal, Target.IsLocalExternal, Target.IsRemote, h1, h2])),
        fun _ => ⟨h2, h1⟩⟩

/-- Whenever the input contains a '+', parsing succeeds and the target name
is everything after the first '+'. -/
theorem ParseTarget_ok_name (s : Str) (pre rest : List Char)
    (h : splitFirst '+' s.data = some (pre, rest)) :
    ∃ t, ParseTarget s = .ok t ∧ t.TargetName = ⟨rest⟩ := by
  unfold ParseTarget
  rw [h]
  dsimp only
  by_cases h1 : pre = []
  · rw [if_pos h1]
    exact ⟨_, rfl, rfl⟩
  · rw [if_neg h1]
    by_cases h2 : (leadsDot pre || isAbs pre) = true
    · rw [if_pos h2]
      exact ⟨_, rfl, rfl⟩
    · rw [if_neg h2]
      exact ⟨_, rfl, rfl⟩

/-! ### Claim theorems -/

/-- C1: the claim states that joining a Remote caller with a non-Remote
reference returns a Remote reference inheriting the caller's git_url and
tag (with a ContextError for an absolute local_path). The code instead
executes panic("TODO") unconditionally in that branch: at the spec's own S4
input (Remote caller `github.com/acme/widgets` at `examples/go` tag `main`,
LocalExternal reference `./sub+t`) the join panics instead of producing
`examples/go/sub`. -/
theorem C1_join_remote_caller_panics :
    JoinTargets ⟨"github.com/acme/widgets", "examples/go", "main", "", ""⟩
      ⟨"", "", "", "./sub", "t"⟩ = .error .panicTODO := rfl

/-- C2 counterexample: the round-trip `render(parse(s)) = s` fails on a
remote input with empty sub-path — `"github.com/acme/widgets+x"` parses
successfully, but rendering the result inserts a '/' between the git URL
and the (empty) sub-path, producing `"github.com/acme/widgets/+x"`. No
whitespace squeezing is involved. -/
theorem C2_roundtrip_counterexample :
    ParseTarget "github.com/acme/widgets+x" =
      .ok ⟨"github.com/acme/widgets", "", "", "", "x"⟩ ∧
    Target.String ⟨"github.com/acme/widgets", "", "", "", "x"⟩ ≠
      "github.com/acme/widgets+x" := ⟨rfl, by decide⟩

/-- C2 (amended): `render(parse(s)) = s` holds for local-internal inputs
(those beginning with '+'), and for local-external inputs whose path part
is already in the parser's normal form; it does not hold in general for
inputs parsed as remote, where rendering inserts an extra '/'. -/
theorem C2_roundtrip_amended :
    (∀ (s : Str) (rest : List Char), s.data = '+' :: rest →
        ParseTarget s = .ok ⟨"", "", "", ".", ⟨rest⟩⟩ ∧
        Target.String ⟨"", "", "", ".", ⟨rest⟩⟩ = s) ∧
    (∀ (p n : List Char), '+' ∉ p → (leadsDot p || isAbs p) = true →
        normalizeLocalPath p = p → p ≠ ['.'] →
        ParseTarget ⟨p ++ '+' :: n⟩ = .ok ⟨"", "", "", ⟨p⟩, ⟨n⟩⟩ ∧
        Target.String ⟨"", "", "", ⟨p⟩, ⟨n⟩⟩ = ⟨p ++ '+' :: n⟩) := by
  constructor
  · intro s rest h
    cases s with
    | mk data =>
      cases h
      exact ⟨rfl, rfl⟩
  · intro p n hp hl hnorm hdot
    have hne : p ≠ [] := by
      intro hcon
      subst hcon
      simp [leadsDot, isAbs] at hl
    constructor
    · rw [ParseTarget_localExternal p n hp hl, hnorm]
    · rw [String_localExternal "" "" "" ⟨p⟩ ⟨n⟩ (mkStr_ne_dot p hdot) (mkStr_ne_nil p hne),
        string_mk_append, string_mk_append]
      simp

/-- C2 witness: both parts of the amended round-trip at concrete inputs
`"+build"` and `"./sub/dir+test"`. -/
theorem C2_roundtrip_amended_witness :
    (("+build" : Str).data = '+' :: "build".data ∧
      ParseTarget "+build" = .ok ⟨"", "", "", ".", "build"⟩ ∧
      Target.String ⟨"", "", "", ".", "build"⟩ = "+build") ∧
    ('+' ∉ "./sub/dir".data ∧
      (leadsDot "./sub/dir".data || isAbs "./sub/dir".data) = true ∧
      normalizeLocalPath "./sub/dir".data = "./sub/dir".data ∧
      "./sub/dir".data ≠ ['.'] ∧
      ParseTarget "./sub/dir+test" = .ok ⟨"", "", "", "./sub/dir", "test"⟩ ∧
      Target.String ⟨"", "", "", "./sub/dir", "test"⟩ = "./sub/dir+test") := by
  refine ⟨⟨rfl, ?_⟩, ⟨by decide, by decide, by decide, by decide, ?_⟩⟩
  · exact C2_roundtrip_amended.1 "+build" "build".data rfl
  · exact C2_roundtrip_amended.2 "./sub/dir".data "test".data
      (by decide) (by decide) (by decide) (by decide)

/-- C3 counterexample: the input `"github.com/acme/widgets:v1.2+release"`
parses to the claimed field values, but its canonical rendering is
`"github.com/acme/widgets/:v1.2+release"` (a '/' is always inserted after
the git URL, even for an empty sub-path), which differs from the input. -/
theorem C3_canonical_render_counterexample :
    ParseTarget "github.com/acme/widgets:v1.2+release" =
      .ok ⟨"github.com/acme/widgets", "", "v1.2", "", "release"⟩ ∧
    Target.StringCanonical ⟨"github.com/acme/widgets", "", "v1.2", "", "release"⟩ ≠
      "github.com/acme/widgets:v1.2+release" := ⟨rfl, by decide⟩

/-- C3 (amended): parsing `"github.com/acme/widgets:v1.2+release"` yields a
remote reference with git_url `"github.com/acme/widgets"`, empty
git_sub_path, tag `"v1.2"` and name `"release"`; its canonical rendering is
`"github.com/acme/widgets/:v1.2+release"` — the input with an extra '/'
before the tag separator, not the input itself. -/
theorem C3_parse_remote_amended :
    ParseTarget "github.com/acme/widgets:v1.2+release" =
      .ok ⟨"github.com/acme/widgets", "", "v1.2", "", "release"⟩ ∧
    Target.StringCanonical ⟨"github.com/acme/widgets", "", "v1.2", "", "release"⟩ =
      "github.com/acme/widgets/:v1.2+release" := ⟨rfl, rfl⟩

/-- C4 counterexample: for the input `"example.com/foo/bar+build"`, whose
prefix is a remote path accepted by no matcher pattern, parsing does not
fail with an UnresolvedRemote error — it succeeds and returns a reference
(with empty git_url and git_sub_path). -/
theorem C4_unmatched_counterexample :
    ParseTarget "example.com/foo/bar+build" = .ok ⟨"", "", "", "", "build"⟩ := rfl

/-- C4 (amended): when the prefix is a remote path (non-empty, not starting
with '.' or '/') and no git matcher pattern matches it, parsing succeeds
and returns a reference whose git_url and git_sub_path are both empty,
keeping the tag split off at the first ':' and the name after the '+'
(`parseGitURLandPath` returns `("", "")` with a nil error on no match, and
`ParseTarget` propagates it without failing). -/
theorem C4_unmatched_amended : ∀ (s : Str) (pre rest pt tg : List Char),
    splitFirst '+' s.data = some (pre, rest) →
    pre ≠ [] → leadsDot pre = false → isAbs pre = false →
    parseTag pre = (pt, tg) →
    parseGitURLandPath pt = ([], []) →
    ParseTarget s = .ok ⟨"", "", ⟨tg⟩, "", ⟨rest⟩⟩ := by
  intro s pre rest pt tg hsplit hne hld habs htag hlook
  unfold ParseTarget
  rw [hsplit]
  dsimp only
  rw [if_neg hne]
  rw [if_neg (by simp [hld, habs])]
  rw [htag]
  dsimp only
  rw [hlook]
  rfl

/-- C4 witness: the amended statement at the concrete unmatched remote
input `"example.org/foo+t"`. -/
theorem C4_unmatched_amended_witness :
    (splitFirst '+' ("example.org/foo+t" : Str).data =
        some ("example.org/foo".data, "t".data) ∧
      "example.org/foo".data ≠ [] ∧
      leadsDot "example.org/foo".data = false ∧
      isAbs "example.org/foo".data = false ∧
      parseTag "example.org/foo".data = ("example.org/foo".data, []) ∧
      parseGitURLandPath "example.org/foo".data = ([], [])) ∧
    ParseTarget "example.org/foo+t" = .ok ⟨"", "", "", "", "t"⟩ := by
  refine ⟨⟨by decide, by decide, by decide, by decide, by decide, by decide⟩, ?_⟩
  exact C4_unmatched_amended "example.org/foo+t" "example.org/foo".data "t".data
    "example.org/foo".data [] (by decide) (by decide) (by decide) (by decide)
    (by decide) (by decide)

/-- C5: when the caller is local (internal or external), joining behaves as
claimed: an absolute local-external reference keeps its path (path-cleaned);
a relative local-external reference is POSIX-joined onto the caller's
local_path with the "./" rule re-applied; a local-internal reference
inherits the caller's local_path; a remote reference is returned
unchanged. -/
theorem C5_join_local_caller : ∀ t1 t2 : Target, t1.IsRemote = false →
    (t2.IsLocalExternal = true → isAbs t2.LocalPath.data = true →
      JoinTargets t1 t2 = .ok { t2 with LocalPath := ⟨pathClean t2.LocalPath.data⟩ }) ∧
    (t2.IsLocalExternal = true → isAbs t2.LocalPath.data = false →
      JoinTargets t1 t2 =
        .ok { t2 with
          LocalPath := ⟨dotRule (pathJoin t1.LocalPath.data t2.LocalPath.data)⟩ }) ∧
    (t2.IsLocalInternal = true →
      JoinTargets t1 t2 = .ok { t2 with LocalPath := t1.LocalPath }) ∧
    (t2.IsRemote = true → JoinTargets t1 t2 = .ok t2) := by
  intro t1 t2 h
  refine ⟨?_, ?_, ?_, ?_⟩
  · intro hx ha
    simp [JoinTargets, h, hx, ha, List.asString]
  · intro hx ha
    simp [JoinTargets, h, hx, ha, List.asString]
  · intro hi
    simp [JoinTargets, h, hi, IsLocalInternal_not_ext t2 hi]
  · intro hr
    obtain ⟨h1, h2⟩ := IsRemote_fields t2 hr
    simp [JoinTargets, h, h1, h2]

/-- C5 witness: a local-internal caller joined with a relative
local-external reference. -/
theorem C5_join_local_caller_witness :
    ((⟨"", "", "", ".", ""⟩ : Target).IsRemote = false ∧
      (⟨"", "", "", "./sub", "t"⟩ : Target).IsLocalExternal = true ∧
      isAbs ("./sub" : Str).data = false) ∧
    JoinTargets ⟨"", "", "", ".", ""⟩ ⟨"", "", "", "./sub", "t"⟩ =
      .ok ⟨"", "", "", "./sub", "t"⟩ := by
  refine ⟨⟨by decide, by decide, by decide⟩, ?_⟩
  exact (C5_join_local_caller ⟨"", "", "", ".", ""⟩ ⟨"", "", "", "./sub", "t"⟩
    (by decide)).2.1 (by decide) (by decide)

/-- C6 counterexample: the value produced by parsing
`"example.org/foo+t"` (whose prefix no matcher accepts) is classified as
Remote by the code, yet its git_url is empty — so none of the claim's three
permitted shapes (LocalInternal; LocalExternal with proper path; Remote
with non-empty git_url) holds for it. -/
theorem C6_invariant_counterexample :
    ParseTarget "example.org/foo+t" = .ok ⟨"", "", "", "", "t"⟩ ∧
    Target.IsRemote ⟨"", "", "", "", "t"⟩ = true ∧
    (⟨"", "", "", "", "t"⟩ : Target).GitURL = "" ∧
    Target.IsLocalInternal ⟨"", "", "", "", "t"⟩ = false ∧
    Target.IsLocalExternal ⟨"", "", "", "", "t"⟩ = false :=
  ⟨rfl, rfl, rfl, rfl, rfl⟩

/-- C6 (amended): every reference produced by parse or join satisfies
exactly one of LocalInternal, LocalExternal (with local_path neither empty
nor "."), or Remote; the non-empty-git_url guarantee for Remote does not
hold (a Remote produced by parse may have an empty git_url when no matcher
matched the prefix). -/
theorem C6_classification_amended :
    (∀ (s : Str) (t : Target), ParseTarget s = .ok t → classified t) ∧
    (∀ (a b t : Target), JoinTargets a b = .ok t → classified t) :=
  ⟨fun _ t _ => target_class t, fun _ _ t _ => target_class t⟩

/-- C6 witness: the classification at the parse of `"+build"`. -/
theorem C6_classification_amended_witness :
    ParseTarget "+build" = .ok ⟨"", "", "", ".", "build"⟩ ∧
    classified ⟨"", "", "", ".", "build"⟩ :=
  ⟨rfl, C6_classification_amended.1 "+build" ⟨"", "", "", ".", "build"⟩ rfl⟩

/-- C7: the claim describes general here-doc handling for any tag; the code
hard-codes the delimiter "EOF" and a 19-character look-ahead window. At the
input `"<<END\nab\nEND\nrest"` (tag END, atom at index 0) the claim
requires the body `"ab"` to be emitted and the cursor to advance past the
`END` line; the code searches the window for the literal "EOF", finds none,
and panics ("EOF not found"), modelled as `none`. -/
theorem C7_heredoc_hardcoded_eof :
    heredocExtract "<<END\nab\nEND\nrest" 0 = none := rfl

/-- C8 counterexample: with underlying tokens `content, NL, WS, WS,
content, NL, content`, the recorded indent level rises to 2 and then
returns to 0, so the claim requires two DEDENT tokens in sequence before
the final content token; the wrapper emits exactly one DEDENT. -/
theorem C8_dedent_counterexample :
    ([UTok.content 0, .nl, .ws, .ws, .content 1, .nl].foldl lexStep
        ([], initLexState)).2 = ⟨2, 0, true, [Tok.nl]⟩ ∧
    lexAll [UTok.content 0, .nl, .ws, .ws, .content 1, .nl, .content 2] =
      [Tok.content 0, Tok.nl, Tok.ws, Tok.ws, Tok.INDENT, Tok.content 1, Tok.nl,
        Tok.DEDENT, Tok.content 2, Tok.eof] ∧
    (lexAll [UTok.content 0, .nl, .ws, .ws, .content 1, .nl, .content 2]).count
      Tok.DEDENT ≠ 2 := ⟨by decide, by decide, by decide⟩

/-- C8 (amended): at the start of a content-bearing line the lexer compares
the new indent level — counted as the number of WS tokens seen since the
last newline, not as visible columns — with the previously recorded level;
it emits one INDENT when strictly greater and exactly one DEDENT when
strictly less (even when more than one level is closed), positioned just
before the first content token of the line (after any previously queued
tokens). -/
theorem C8_indent_amended : ∀ (st : LexState) (n : Nat), st.afterNewLine = true →
    ((st.prevIndentLevel < st.indentLevel →
        (nextToken st (.content n)).1 :: (nextToken st (.content n)).2.tokenQueue =
          st.tokenQueue ++ [Tok.INDENT, Tok.content n]) ∧
     (st.indentLevel < st.prevIndentLevel →
        (nextToken st (.content n)).1 :: (nextToken st (.content n)).2.tokenQueue =
          st.tokenQueue ++ [Tok.DEDENT, Tok.content n]) ∧
     (nextToken st UTok.ws).2.indentLevel = st.indentLevel + 1 ∧
     (nextToken st (.content n)).2.prevIndentLevel = st.indentLevel ∧
     (nextToken st (.content n)).2.afterNewLine = false) := by
  rintro ⟨p, i, a, q⟩ n h
  cases h
  refine ⟨?_, ?_, ?_, ?_, ?_⟩
  · intro hlt
    simp only [nextToken, if_pos hlt, emitFromQueue]
    cases q with
    | nil => simp
    | cons q0 qr => simp
  · intro hlt
    dsimp only at hlt
    have hnot : ¬ p < i := by omega
    simp only [nextToken, emitFromQueue, if_neg hnot, if_pos hlt]
    cases q with
    | nil => simp
    | cons q0 qr => simp
  · simp only [nextToken, emitFromQueue]
    cases q with
    | nil => simp
    | cons q0 qr => simp
  · simp only [nextToken, emitFromQueue]
    by_cases h1 : p < i
    · simp only [if_pos h1]
      cases q <;> simp
    · simp only [if_neg h1]
      by_cases h2 : i < p
      · simp only [if_pos h2]
        cases q <;> simp
      · simp only [if_neg h2]
        cases q <;> simp
  · simp only [nextToken, emitFromQueue]
    by_cases h1 : p < i
    · simp only [if_pos h1]
      cases q <;> simp
    · simp only [if_neg h1]
      by_cases h2 : i < p
      · simp only [if_pos h2]
        cases q <;> simp
      · simp only [if_neg h2]
        cases q <;> simp

/-- C8 witness: a state with recorded level 2 and current level 0 after a
newline — the next content token is preceded by exactly one DEDENT — and
the WS increment at the same state. -/
theorem C8_indent_amended_witness :
    ((⟨2, 0, true, []⟩ : LexState).afterNewLine = true ∧ 0 < 2) ∧
    (nextToken ⟨2, 0, true, []⟩ (.content 7)).1 ::
      (nextToken ⟨2, 0, true, []⟩ (.content 7)).2.tokenQueue =
      [Tok.DEDENT, Tok.content 7] ∧
    (nextToken ⟨2, 0, true, []⟩ UTok.ws).2.indentLevel = 1 := by
  refine ⟨⟨rfl, by decide⟩, ?_, ?_⟩
  · exact (C8_indent_amended ⟨2, 0, true, []⟩ 7 rfl).2.1 (by decide)
  · exact (C8_indent_amended ⟨2, 0, true, []⟩ 7 rfl).2.2.1

/-- C9 counterexample: canonical rendering is not idempotent through parse
for remote references. The canonical form of the S3 reference is
`"github.com/acme/widgets/:v1.2+release"`; re-parsing moves the trailing
'/' of the matched prefix into the git sub-path, and rendering again yields
`"github.com/acme/widgets//:v1.2+release"`, a different string. -/
theorem C9_idempotence_counterexample :
    ParseTarget
        (Target.StringCanonical ⟨"github.com/acme/widgets", "", "v1.2", "", "release"⟩) =
      .ok ⟨"github.com/acme/widgets", "/", "v1.2", "", "release"⟩ ∧
    Target.StringCanonical ⟨"github.com/acme/widgets", "/", "v1.2", "", "release"⟩ ≠
      Target.StringCanonical ⟨"github.com/acme/widgets", "", "v1.2", "", "release"⟩ :=
  ⟨rfl, by decide⟩

/-- C9 (amended): canonical rendering is idempotent through parse for
references with empty git_url whose local_path is "." or an already
normalized external path without '+'; for references with non-empty git_url
it is not idempotent (each round adds a '/'). -/
theorem C9_canonical_idempotent_amended : ∀ t : Target, t.GitURL = "" →
    '+' ∉ t.LocalPath.data →
    (t.LocalPath = "." ∨
      ((leadsDot t.LocalPath.data || isAbs t.LocalPath.data) = true ∧
        normalizeLocalPath t.LocalPath.data = t.LocalPath.data ∧ t.LocalPath ≠ ".")) →
    ∃ t', ParseTarget t.StringCanonical = .ok t' ∧
      t'.StringCanonical = t.StringCanonical := by
  rintro ⟨gu, gp, tg, lp, nm⟩ hgu hplus hcase
  dsimp at hgu hplus hcase
  subst hgu
  rcases hcase with hdot | ⟨hl, hnorm, hne'⟩
  · subst hdot
    refine ⟨⟨"", "", "", ".", nm⟩, ?_, ?_⟩
    · rw [StringCanonical_dot gp tg nm]
      cases nm with
      | mk nd =>
        have h2 : ("+" ++ (⟨nd⟩ : Str)) = ⟨'+' :: nd⟩ := rfl
        rw [h2, ParseTarget_plus]
    · rw [StringCanonical_dot "" "" nm, StringCanonical_dot gp tg nm]
  · have hnel : lp.data ≠ [] := by
      intro hcon
      rw [hcon] at hl
      simp [leadsDot, isAbs] at hl
    have hne0 : lp ≠ "" := by
      intro hcon
      apply hnel
      rw [hcon]
    refine ⟨⟨"", "", "", lp, nm⟩, ?_, ?_⟩
    · rw [StringCanonical_localExternal gp tg lp nm hne' hne0]
      cases lp with
      | mk ld =>
        cases nm with
        | mk nd =>
          have h2 : ((⟨ld⟩ : Str) ++ "+" ++ (⟨nd⟩ : Str)) = ⟨ld ++ '+' :: nd⟩ := by
            rw [string_mk_append, string_mk_append]
            simp
          rw [h2]
          dsimp at hplus hl hnorm
          rw [ParseTarget_localExternal ld nd hplus hl, hnorm]
    · rw [StringCanonical_localExternal "" "" lp nm hne' hne0,
        StringCanonical_localExternal gp tg lp nm hne' hne0]

/-- C9 witness: idempotence at the concrete local-external reference
`./sub/dir+test`. -/
theorem C9_canonical_idempotent_amended_witness :
    ((⟨"", "", "", "./sub/dir", "test"⟩ : Target).GitURL = "" ∧
      '+' ∉ ("./sub/dir" : Str).data ∧
      (leadsDot "./sub/dir".data || isAbs "./sub/dir".data) = true ∧
      normalizeLocalPath "./sub/dir".data = "./sub/dir".data ∧
      ("./sub/dir" : Str) ≠ ".") ∧
    ∃ t', ParseTarget (Target.StringCanonical ⟨"", "", "", "./sub/dir", "test"⟩) =
        .ok t' ∧
      t'.StringCanonical = Target.StringCanonical ⟨"", "", "", "./sub/dir", "test"⟩ := by
  refine ⟨⟨rfl, by decide, by decide, by decide, by decide⟩, ?_⟩
  exact C9_canonical_idempotent_amended ⟨"", "", "", "./sub/dir", "test"⟩ rfl
    (by decide) (Or.inr ⟨by decide, by decide, by decide⟩)

/-- C10: for every input containing more than one '+', parsing does not
fail, and the split happens only at the first '+': the target name is
everything after the first '+', including any further '+' characters. -/
theorem C10_split_at_first_plus : ∀ (s : Str), 2 ≤ s.data.count '+' →
    ∃ t, ParseTarget s = .ok t ∧
      t.TargetName = ⟨(s.data.dropWhile (· ≠ '+')).tail⟩ := by
  intro s h
  have hmem : '+' ∈ s.data := by
    by_contra hcon
    rw [List.count_eq_zero.mpr hcon] at h
    omega
  exact ParseTarget_ok_name s _ _ (splitFirst_of_mem '+' s.data hmem)

/-- C10 witness: the concrete input `"a+b+c"` (two '+' characters). -/
theorem C10_split_at_first_plus_witness :
    2 ≤ ("a+b+c" : Str).data.count '+' ∧
    ∃ t, ParseTarget "a+b+c" = .ok t ∧
      t.TargetName = ⟨(("a+b+c" : Str).data.dropWhile (· ≠ '+')).tail⟩ :=
  ⟨by decide, C10_split_at_first_plus "a+b+c" (by decide)⟩

end Earthly
